import Mathlib

/-!
Shallow embedding of `models/chainer/attention/attention_seq2seq.py`
(class `AttentionSeq2seq`) for a verification of its control flow.

Modelling conventions:
* Tensors are integer-valued nested lists (the claims below depend only on
  comparisons and selections among activations, never on their real
  arithmetic, and the probability-valued hyperparameters stay rational).
  A batched tensor of shape
  `[B, T, D]` is a `List (List Vec)`; the batch axis is the outer list.
  The chainer links used here (linear layers, recurrent decoders, the
  attention mechanism, the embedding lookup) all act independently on each
  batch row, so batched applications are modelled as maps or zips of the
  per-row functions.
* Real-valued library primitives that the claims never inspect numerically
  (the recurrent decoder cell, the attention mechanism, the embedding table,
  tanh, log-softmax, numpy logaddexp, the decoder-state initializer and the
  cross-entropy reduction) are abstracted as function fields supplied to the
  constructor; the encoder comes from another module of the repository and is
  not modelled, so the decode functions take the encoder output directly.
* `LinearND` layers are modelled concretely (weight matrix and bias, applied
  by dot products) because the output-layer shape is load bearing.
* `random.random()` draws are an explicit oracle `rand : Nat → ℚ` indexed by
  the loop step.
* Python exceptions become an error sum type; an out-of-range tensor index
  becomes `Option`.
-/

namespace A2S

abbrev Vec := List ℤ

abbrev Token := Nat

/-- Dot product of two rational vectors (zipped multiplication, summed). -/
def dot (a b : Vec) : ℤ := (List.zipWith (· * ·) a b).sum

/-- A `LinearND` layer: a weight matrix (one row per output unit) and a bias
vector.  `models/chainer/linear.py` is not under `src/`; a fully-connected
layer applying `x ↦ Wx + b` is its standard reading, and only the number of
output units matters for the claims. -/
structure Linear where
  weight : List (List ℤ)
  bias : List ℤ

/-- Apply a linear layer to a feature vector. -/
def Linear.apply (l : Linear) (x : Vec) : Vec :=
  List.zipWith (fun w b => dot w x + b) l.weight l.bias

/-- Index of the first maximal element of a list (the semantics of
`F.argmax` / `np.argmax` on one row), via an accumulator scan. -/
def argmaxAux : List ℤ → Nat → Nat → ℤ → Nat
  | [], _, bi, _ => bi
  | x :: xs, i, bi, bv =>
    if bv < x then argmaxAux xs (i + 1) i x else argmaxAux xs (i + 1) bi bv

/-- First index attaining the maximum of a list; `0` on the empty list. -/
def argmaxIdx : List ℤ → Nat
  | [] => 0
  | x :: xs => argmaxAux xs 1 0 x

/-- Stable insertion (ascending by value) used to model `xp.argsort`. -/
def insertAscPair (x : Nat × ℤ) : List (Nat × ℤ) → List (Nat × ℤ)
  | [] => [x]
  | y :: ys => if y.2 ≤ x.2 then y :: insertAscPair x ys else x :: y :: ys

/-- Indices of a list sorted by decreasing value, modelling
`xp.argsort(log_probs, axis=1)[0, ::-1]`: an ascending argsort of the single
row followed by reversal. -/
def argsortDesc (l : List ℤ) : List Nat :=
  ((l.enum.foldl (fun acc x => insertAscPair x acc) []).reverse).map Prod.fst

/-- Three-way zip used for batched attention application. -/
def zipWith3 (f : α → β → γ → δ) : List α → List β → List γ → List δ
  | a :: as, b :: bs, c :: cs => f a b c :: zipWith3 f as bs cs
  | _, _, _ => []

/-- Python exceptions raised by the modelled methods. -/
inductive PyError where
  | valueError
  | notImplementedError
  | assertionError
deriving DecidableEq, Repr

/-- Framework-provided numerical primitives handed to the constructor.  Each
acts on one batch row; `winit` is the uniform weight-initialization oracle
(layer index, output unit, input unit). -/
structure Primitives (S : Type) where
  decoder : Vec → S → Vec × S
  attend : List Vec → Vec → Vec → Vec × Vec
  embed : Token → Vec
  tanh : ℤ → ℤ
  log_softmax : Vec → Vec
  logaddexp : ℤ → ℤ → ℤ
  init_state : List Vec → S
  xent : List (List Vec) → List (List Token) → ℤ
  winit : Nat → Nat → Nat → ℤ

/-- Constructor arguments of `AttentionSeq2seq.__init__` that the claims
depend on. -/
structure Hyper where
  encoder_type : String
  encoder_bidirectional : Bool
  encoder_num_units : Nat
  decoder_num_units : Nat
  embedding_dim : Nat
  num_classes : Nat
  init_dec_state : String
  ctc_loss_weight : ℚ
  num_stack : Nat
  splice : Nat
  scheduled_sampling_prob : ℚ
  scheduled_sampling_ramp_max_step : ℚ

/-- The state of a constructed `AttentionSeq2seq` object: the attributes set
by `__init__` that the modelled methods read or write. -/
structure Model (S : Type) where
  num_classes : Nat
  sos_index : Nat
  eos_index : Nat
  sample_prob : ℚ
  _sample_prob : ℚ
  sample_ramp_max_step : ℚ
  _step : Nat
  ctc_loss_weight : ℚ
  decoder_input : String
  decoder : Vec → S → Vec × S
  attend : List Vec → Vec → Vec → Vec × Vec
  embed : Token → Vec
  tanh : ℤ → ℤ
  log_softmax : Vec → Vec
  logaddexp : ℤ → ℤ → ℤ
  init_state : List Vec → S
  xent : List (List Vec) → List (List Token) → ℤ
  proj_layer : Linear
  fc : Linear
  fc_ctc : Option Linear
  ctc_decoders : Bool

/-- Build a `LinearND` layer: weights drawn from the initialization oracle,
biases initialized to `0` (the constructor runs
`init_weights(0, ..., keys=[ bias])`). -/
def makeLinear (layer rows cols : Nat) (w : Nat → Nat → Nat → ℤ) : Linear :=
  { weight := (List.range rows).map (fun i => (List.range cols).map (w layer i)),
    bias := List.replicate rows 0 }

/-- The constructor `AttentionSeq2seq.__init__`, with its checks in source
order: the `init_dec_state` membership check, then the scheduled-sampling
check, then the encoder-type dispatch (where the `cnn` branch asserts
`num_stack == 1` and `splice == 1`, and an unknown type raises
`NotImplementedError`).  On success it returns the constructed object:
`num_classes` is the argument plus the `<SOS>` and `<EOS>` classes,
`sos_index = num_classes + 1`, `eos_index = num_classes`, the output layer
`fc` has `num_classes - 1` units (the internal count minus the `<SOS>`
class), and the CTC output layer and CTC decoders exist exactly when
`ctc_loss_weight > 0`. -/
def __init__ (h : Hyper) (p : Primitives S) : Except PyError (Model S) :=
  if h.init_dec_state ∉ (["zero", "mean", "final"] : List String) then
    Except.error PyError.valueError
  else if h.scheduled_sampling_prob > 0 ∧ h.scheduled_sampling_ramp_max_step = 0 then
    Except.error PyError.valueError
  else
    let is_bridge := h.encoder_bidirectional ∨ h.encoder_num_units ≠ h.decoder_num_units
    let fc_ctc_in :=
      if is_bridge then h.decoder_num_units
      else h.encoder_num_units * (if h.encoder_bidirectional then 2 else 1)
    let build : Model S :=
      { num_classes := h.num_classes + 2,
        sos_index := h.num_classes + 1,
        eos_index := h.num_classes,
        sample_prob := h.scheduled_sampling_prob,
        _sample_prob := h.scheduled_sampling_prob,
        sample_ramp_max_step := h.scheduled_sampling_ramp_max_step,
        _step := 0,
        ctc_loss_weight := h.ctc_loss_weight,
        decoder_input := if h.embedding_dim = 0 then "onehot" else "embedding",
        decoder := p.decoder,
        attend := p.attend,
        embed := p.embed,
        tanh := p.tanh,
        log_softmax := p.log_softmax,
        logaddexp := p.logaddexp,
        init_state := p.init_state,
        xent := p.xent,
        proj_layer := makeLinear 0 h.decoder_num_units (h.decoder_num_units * 2) p.winit,
        fc := makeLinear 1 (h.num_classes + 2 - 1) h.decoder_num_units p.winit,
        fc_ctc :=
          if h.ctc_loss_weight > 0 then
            some (makeLinear 2 (h.num_classes + 1) fc_ctc_in p.winit)
          else none,
        ctc_decoders := decide (h.ctc_loss_weight > 0) }
    if h.encoder_type ∈ (["lstm", "gru", "rnn"] : List String) then
      Except.ok build
    else if h.encoder_type = "cnn" then
      if h.num_stack = 1 ∧ h.splice = 1 then Except.ok build
      else Except.error PyError.assertionError
    else
      Except.error PyError.notImplementedError

/-- One decoding step (`_decode_step`, main task): advance the recurrent
decoder on the concatenated input, then attend over the encoder outputs with
the fresh decoder output. -/
def _decode_step (m : Model S) (enc_out : List (List Vec)) (dec_in : List Vec)
    (dec_state : List S) (att_weights_step : List Vec) :
    List Vec × List S × List Vec × List Vec :=
  let dec := List.zipWith m.decoder dec_in dec_state
  let dec_out := dec.map Prod.fst
  let dec_state2 := dec.map Prod.snd
  let att := zipWith3 m.attend enc_out dec_out att_weights_step
  let context_vec := att.map Prod.fst
  let att_weights2 := att.map Prod.snd
  (dec_out, dec_state2, context_vec, att_weights2)

/-- Per-step logits: `fc(tanh(proj_layer(concat[dec_out, context_vec]))))`,
applied to each batch row. -/
def logitsOf (m : Model S) (dec_out context_vec : List Vec) : List Vec :=
  (List.zipWith (· ++ ·) dec_out context_vec).map
    (fun v => m.fc.apply ((m.proj_layer.apply v).map m.tanh))

/-- The running decoder-side state of a decode loop: recurrent state,
previous attention weights and previous context vector, one entry per batch
row. -/
structure LoopState (S : Type) where
  dec_state : List S
  att_weights_step : List Vec
  context_vec : List Vec

/-- Initial loop state: `_init_decoder_state(enc_out)` per row, zero
attention weights of shape `[B, max_time]`, zero context of shape
`[B, 1, D]`. -/
def initLoopState (m : Model S) (enc_out : List (List Vec)) : LoopState S :=
  let maxTime := (enc_out.headD []).length
  let d := ((enc_out.headD []).headD []).length
  { dec_state := enc_out.map m.init_state,
    att_weights_step := List.replicate enc_out.length (List.replicate maxTime 0),
    context_vec := List.replicate enc_out.length (List.replicate d 0) }

/-- Trace record of one iteration of the greedy inference loop: the tokens
whose embeddings were fed to the decoder, the per-row logits of the step, and
the per-row attention weights appended to the output. -/
structure GStep where
  consumed : List Token
  logits : List Vec
  att_weights : List Vec
deriving Repr, DecidableEq

instance : Inhabited GStep := ⟨⟨[], [], []⟩⟩

/-- Tokens emitted at a greedy step: per-row argmax over that step's logits
(`y = F.argmax(F.squeeze(logits, axis=1), axis=1)`). -/
def GStep.emitted (r : GStep) : List Token := r.logits.map argmaxIdx

/-- The shared body of one iteration of the decode loops: embed the consumed
tokens, concatenate with the previous context vector, run `_decode_step`,
and compute the per-row logits.  Returns the logits, the attention weights
recorded for this step, and the next loop state. -/
def loopIter (m : Model S) (enc_out : List (List Vec)) (consumed : List Token)
    (st : LoopState S) : List Vec × List Vec × LoopState S :=
  let yv := consumed.map m.embed
  let dec_in := List.zipWith (· ++ ·) yv st.context_vec
  let r := _decode_step m enc_out dec_in st.dec_state st.att_weights_step
  let logits := logitsOf m r.1 r.2.2.1
  (logits, r.2.2.2, ⟨r.2.1, r.2.2.2, r.2.2.1⟩)

/-- The break test of the greedy loop,
`sum(y.data == eos)[0] == len(y)`: the count of rows equal to `<EOS>` equals
the batch size. -/
def eosBreak (eos : Nat) (y : List Token) : Bool :=
  (y.filter (fun tok => decide (tok = eos))).length = y.length

/-- Body of the greedy inference loop, producing the trace of the remaining
iterations.  Each iteration embeds the current tokens, concatenates with the
context vector, runs `_decode_step`, computes the logits, picks the per-row
argmax as the next tokens, records the step, and stops when every row emitted
`<EOS>` (after recording) or when the fuel (`max_decode_len`) runs out. -/
def greedyGo (m : Model S) (enc_out : List (List Vec)) :
    Nat → List Token → LoopState S → List GStep
  | 0, _, _ => []
  | fuel + 1, y, st =>
    let it := loopIter m enc_out y st
    let step : GStep := ⟨y, it.1, it.2.1⟩
    if eosBreak m.eos_index (it.1.map argmaxIdx) then [step]
    else step :: greedyGo m enc_out fuel (it.1.map argmaxIdx) it.2.2

/-- Greedy decoding (`_decode_infer_greedy`): start every batch row from
`<SOS>` and iterate for at most `max_decode_len` steps. -/
def _decode_infer_greedy (m : Model S) (enc_out : List (List Vec))
    (max_decode_len : Nat) : List GStep :=
  greedyGo m enc_out max_decode_len
    (List.replicate enc_out.length m.sos_index) (initLoopState m enc_out)

/-- The `best_hyps` array returned by greedy decoding: the per-step emitted
tokens, concatenated along the time axis into shape `[B, T_out]`. -/
def greedy_best_hyps (m : Model S) (enc_out : List (List Vec))
    (max_decode_len : Nat) : List (List Token) :=
  ((_decode_infer_greedy m enc_out max_decode_len).map GStep.emitted).transpose

/-- Trace record of one iteration of the training decode loop. -/
structure TStep where
  consumed : List Token
  sampled : Bool
  logits : List Vec
  att_weights : List Vec
deriving Repr, DecidableEq

instance : Inhabited TStep := ⟨⟨[], false, [], []⟩⟩

/-- Column `t` of the label tensor, `ys[:, t]`. -/
def ysColumn (ys : List (List Token)) (t : Nat) : List Token :=
  ys.map (fun r => r.getD t 0)

/-- `ys.shape[1]` of the (rectangular) label tensor. -/
def labels_max_seq_len (ys : List (List Token)) : Nat :=
  match ys with
  | [] => 0
  | r :: _ => r.length

/-- Body of the training decode loop from step `t` with the given fuel;
`prev` is the list of already-produced step records (the source keeps the
accumulated `logits` list and reads `logits[-1]` for scheduled sampling).
Scheduled sampling is taken when
`sample_prob > 0 and t > 0 and _step > 0 and random.random() < _sample_prob`,
in which case the consumed tokens are the argmax of the previous step's
logits; otherwise the ground-truth column `ys[:, t]` is consumed. -/
def trainGo (m : Model S) (enc_out : List (List Vec)) (ys : List (List Token))
    (rand : Nat → ℚ) : Nat → Nat → LoopState S → List TStep → List TStep
  | _, 0, _, _ => []
  | t, fuel + 1, st, prev =>
    let is_sample : Bool :=
      decide (m.sample_prob > 0) && decide (0 < t) && decide (0 < m._step)
        && decide (rand t < m._sample_prob)
    let consumed :=
      if is_sample then
        (match prev.getLast? with
         | some r => r.logits.map argmaxIdx
         | none => [])
      else ysColumn ys t
    let it := loopIter m enc_out consumed st
    let step : TStep := ⟨consumed, is_sample, it.1, it.2.1⟩
    step :: trainGo m enc_out ys rand (t + 1) fuel it.2.2 (prev ++ [step])

/-- Training-stage decoding (`_decode_train`): the loop runs
`range(labels_max_seq_len - 1)` iterations and returns its step trace (the
source concatenates the recorded logits and attention weights along the time
axis). -/
def _decode_train (m : Model S) (enc_out : List (List Vec))
    (ys : List (List Token)) (rand : Nat → ℚ) : List TStep :=
  trainGo m enc_out ys rand 0 (labels_max_seq_len ys - 1)
    (initLoopState m enc_out) []

/-- The loss returned by `__call__`: a chainer `Variable` during training, a
plain scalar (`loss.data[0]`) during evaluation. -/
inductive LossOut where
  | variableLoss (v : ℤ)
  | scalar (v : ℤ)
deriving DecidableEq, Repr

/-- Forward computation (`__call__`).  It runs the teacher-forced decode and
reduces the logits to a loss (the softmax cross-entropy pipeline is the
abstract `xent` oracle).  With `is_eval` the object is left untouched and the
loss is unwrapped to a scalar; otherwise `_step` is incremented and, when
`sample_prob > 0`, `_sample_prob` is set to
`min(sample_prob, sample_prob / sample_ramp_max_step * _step)` with the
incremented `_step`. -/
def __call__ (m : Model S) (enc_out : List (List Vec)) (ys : List (List Token))
    (rand : Nat → ℚ) (is_eval : Bool) : LossOut × Model S :=
  let tr := _decode_train m enc_out ys rand
  let loss := m.xent (tr.map TStep.logits) ys
  if is_eval then
    (LossOut.scalar loss, m)
  else
    let m1 := { m with _step := m._step + 1 }
    let m2 :=
      if m.sample_prob > 0 then
        { m1 with _sample_prob := (min m.sample_prob
            (m.sample_prob / m.sample_ramp_max_step * ((m._step : ℚ) + 1))) }
      else m1
    (LossOut.variableLoss loss, m2)

/-- A beam-search hypothesis, as the source keeps it: the token sequence, the
accumulated score, and the decoder-side state to resume from. -/
structure Hyp (S : Type) where
  hyp : List Nat
  score : ℤ
  dec_state : S
  att_weights_step : Vec
  context_vec : Vec

/-- Stable descending insertion by score (Python `sorted` with
`reverse=True` is stable; an earlier element with an equal score stays in
front). -/
def insertDesc (x : Hyp S) : List (Hyp S) → List (Hyp S)
  | [] => [x]
  | y :: ys => if x.score ≤ y.score then y :: insertDesc x ys else x :: y :: ys

/-- Sort hypotheses by decreasing score, stably. -/
def sortDesc (l : List (Hyp S)) : List (Hyp S) :=
  l.foldl (fun acc x => insertDesc x acc) []

/-- Expand one hypothesis at step `t` of the beam search for batch element
`i_batch`.  The previous token is `<SOS>` at `t = 0` and otherwise the last
token of the hypothesis; after one decode step the top `beam_width` classes
of the log-softmax are appended.  The source reads
`log_probs[i_batch, i]` although `log_probs` has exactly one row (the single
hypothesis being expanded), so the lookup goes through a one-row matrix and
fails (`none`) whenever `i_batch > 0`. -/
def expandHyp (m : Model S) (enc_rows : List Vec) (i_batch : Nat)
    (beam_width sos : Nat) (t : Nat) (h : Hyp S) : Option (List (Hyp S)) := do
  let tok ← if t = 0 then some sos else h.hyp.getLast?
  let y_prev := m.embed tok
  let dec_in := y_prev ++ h.context_vec
  let dr := m.decoder dec_in h.dec_state
  let ar := m.attend enc_rows dr.1 h.att_weights_step
  let attentional_vec := (m.proj_layer.apply (dr.1 ++ ar.1)).map m.tanh
  let logits := m.fc.apply attentional_vec
  let log_probs := m.log_softmax logits
  let log_probs_mat := [log_probs]
  let indices_topk := (argsortDesc log_probs).take beam_width
  indices_topk.foldlM
    (fun acc i => do
      let row ← log_probs_mat.get? i_batch
      let log_prob ← row.get? i
      pure (acc ++ [{ hyp := h.hyp ++ [i],
                      score := m.logaddexp h.score log_prob,
                      dec_state := dr.2,
                      att_weights_step := ar.2,
                      context_vec := ar.1 : Hyp S }]))
    []

/-- Run the per-element beam loop: expand every active hypothesis, sort all
candidates by descending score, move the `<EOS>`-ended candidates among the
top `beam_width` to the complete set, stop once at least `beam_width`
hypotheses are complete (truncating to `beam_width`), and otherwise keep the
`<EOS>`-free candidates truncated to `beam_width` as the next beam. -/
def beamGo (m : Model S) (enc_rows : List Vec) (i_batch : Nat)
    (beam_width sos eos : Nat) :
    Nat → Nat → List (Hyp S) → List (Hyp S) →
    Option (List (Hyp S) × List (Hyp S))
  | _, 0, beam, complete => some (beam, complete)
  | t, fuel + 1, beam, complete => do
    let expanded ← beam.mapM (expandHyp m enc_rows i_batch beam_width sos t)
    let new_beam := sortDesc expanded.flatten
    let complete2 :=
      complete ++ (new_beam.take beam_width).filter
        (fun c => c.hyp.getLastD 0 = eos)
    if beam_width ≤ complete2.length then
      some (beam, complete2.take beam_width)
    else
      beamGo m enc_rows i_batch beam_width sos eos (t + 1) fuel
        ((new_beam.filter (fun c => c.hyp.getLastD 0 ≠ eos)).take beam_width)
        complete2

/-- Beam search for one batch element: initialize a single empty hypothesis
with score `LOG_1 = 0`, run the loop for `max_decode_len` steps, sort the
complete set by descending score, fall back to the active beam when nothing
completed, and return the token sequence of the best hypothesis. -/
def beamElement (m : Model S) (enc_rows : List Vec) (max_time i_batch : Nat)
    (beam_width max_decode_len : Nat) : Option (List Nat) := do
  let st0 : Hyp S :=
    { hyp := [],
      score := 0,
      dec_state := m.init_state enc_rows,
      att_weights_step := List.replicate max_time 0,
      context_vec := List.replicate ((enc_rows.headD []).length) 0 }
  let r ← beamGo m (enc_rows.take max_time) i_batch beam_width
    m.sos_index m.eos_index 0 max_decode_len [st0] []
  let complete := sortDesc r.2
  let complete2 := if complete.isEmpty then r.1 else complete
  let best ← complete2.head?
  pure best.hyp

/-- Beam-search decoding (`_decode_infer_beam`): run the per-element search
for every batch element `i_batch`, with that element's `x_lens` as
`max_time`. -/
def _decode_infer_beam (m : Model S) (enc_out : List (List Vec))
    (x_lens : List Nat) (beam_width max_decode_len : Nat) :
    Option (List (List Nat)) :=
  (List.range enc_out.length).mapM
    (fun i_batch =>
      beamElement m (enc_out.getD i_batch []) (x_lens.getD i_batch 0) i_batch
        beam_width max_decode_len)

/-- Inference entry point (`decode`): greedy decoding when
`beam_width == 1`, beam-search decoding otherwise.  The encoder runs before
the dispatch and is external to this file, so the function takes the encoder
output directly. -/
def decode (m : Model S) (enc_out : List (List Vec)) (x_lens : List Nat)
    (beam_width max_decode_len : Nat) : Option (List (List Nat)) :=
  if beam_width = 1 then some (greedy_best_hyps m enc_out max_decode_len)
  else _decode_infer_beam m enc_out x_lens beam_width max_decode_len

/-- Outcome of `decode_ctc` as far as the gate: either the leading
`assert self.ctc_loss_weight > 0` fails, or the call proceeds into the CTC
pipeline.  The proceeding record notes which CTC output layer the body
applies (`self.fc_ctc`) and whether the beam CTC decoder (rather than the
greedy one) is dispatched; the numerical CTC decoders
(`models/pytorch/ctc/decoders`) live outside this file's source. -/
inductive CtcOutcome where
  | assertionFailed
  | proceeds (fc_ctc : Option Linear) (usesBeam : Bool)

/-- CTC decoding entry point (`decode_ctc`): asserts
`self.ctc_loss_weight > 0` before anything else, then applies `fc_ctc` and
dispatches on `beam_width == 1`. -/
def decode_ctc (m : Model S) (beam_width : Nat) : CtcOutcome :=
  if m.ctc_loss_weight > 0 then
    CtcOutcome.proceeds m.fc_ctc (decide (beam_width ≠ 1))
  else CtcOutcome.assertionFailed

/-- Trivial primitives over the unit decoder state, used to instantiate the
theorems on concrete inputs. -/
def unitPrims : Primitives Unit :=
  { decoder := fun _ _ => ([0], ()),
    attend := fun _ _ w => ([0], w),
    embed := fun _ => [0],
    tanh := id,
    log_softmax := id,
    logaddexp := fun a b => a + b,
    init_state := fun _ => (),
    xent := fun _ _ => 0,
    winit := fun _ _ _ => 0 }

/-- A concrete valid hyperparameter set: an LSTM encoder, one real output
class, no scheduled sampling, no CTC. -/
def hLstm : Hyper :=
  { encoder_type := "lstm",
    encoder_bidirectional := false,
    encoder_num_units := 1,
    decoder_num_units := 1,
    embedding_dim := 1,
    num_classes := 1,
    init_dec_state := "final",
    ctc_loss_weight := 0,
    num_stack := 1,
    splice := 1,
    scheduled_sampling_prob := 0,
    scheduled_sampling_ramp_max_step := 0 }

/-- The model object `__init__ hLstm unitPrims` constructs. -/
def modelA : Model Unit :=
  { num_classes := 3,
    sos_index := 2,
    eos_index := 1,
    sample_prob := 0,
    _sample_prob := 0,
    sample_ramp_max_step := 0,
    _step := 0,
    ctc_loss_weight := 0,
    decoder_input := "embedding",
    decoder := unitPrims.decoder,
    attend := unitPrims.attend,
    embed := unitPrims.embed,
    tanh := unitPrims.tanh,
    log_softmax := unitPrims.log_softmax,
    logaddexp := unitPrims.logaddexp,
    init_state := unitPrims.init_state,
    xent := unitPrims.xent,
    proj_layer := { weight := [[0, 0]], bias := [0] },
    fc := { weight := [[0], [0]], bias := [0, 0] },
    fc_ctc := none,
    ctc_decoders := false }

/-- A variant of `modelA` whose output layer prefers the `<EOS>` class, so
that greedy decoding terminates early. -/
def modelB : Model Unit :=
  { modelA with fc := { weight := [[0], [0]], bias := [0, 1] } }

/-- A variant of `modelA` with scheduled sampling enabled, for the
forward-pass counter theorems. -/
def modelC : Model Unit :=
  { modelA with
    sample_prob := 1,
    _sample_prob := 1,
    sample_ramp_max_step := 2 }

/-- The hyperparameters of `hLstm` with an auxiliary CTC loss enabled. -/
def hCtc : Hyper := { hLstm with ctc_loss_weight := 1 }

/-- The model object `__init__ hCtc unitPrims` constructs. -/
def modelCtc : Model Unit :=
  { modelA with
    ctc_loss_weight := 1,
    fc_ctc := some { weight := [[0], [0]], bias := [0, 0] },
    ctc_decoders := true }

theorem getElem?_map' (f : α → β) (l : List α) (i : Nat) :
    (l.map f)[i]? = (l[i]?).map f := by
  induction l generalizing i with
  | nil => simp
  | cons a l ih => cases i <;> simp [ih]

theorem getElem?_zipWith' (f : α → β → γ) (as : List α) (bs : List β) (i : Nat) :
    (List.zipWith f as bs)[i]?
      = (as[i]?).bind fun a => (bs[i]?).map (f a) := by
  induction as generalizing bs i with
  | nil => simp
  | cons a as ih =>
    cases bs with
    | nil => simp
    | cons b bs => cases i <;> simp [ih]

theorem getElem?_zipWith3' (f : α → β → γ → δ) (as : List α) (bs : List β)
    (cs : List γ) (i : Nat) :
    (zipWith3 f as bs cs)[i]?
      = (as[i]?).bind fun a => (bs[i]?).bind fun b =>
          (cs[i]?).map (f a b) := by
  induction as generalizing bs cs i with
  | nil => simp [zipWith3]
  | cons a as ih =>
    cases bs with
    | nil => simp [zipWith3]
    | cons b bs =>
      cases cs with
      | nil => simp [zipWith3]
      | cons c cs => cases i <;> simp [zipWith3, ih]

theorem argmaxAux_lt (xs : List ℤ) :
    ∀ i bi bv, bi < i → argmaxAux xs i bi bv < i + xs.length := by
  induction xs with
  | nil => intro i bi bv h; simpa [argmaxAux] using h
  | cons x xs ih =>
    intro i bi bv h
    simp only [argmaxAux, List.length_cons]
    split
    · have := ih (i + 1) i x (Nat.lt_succ_self i)
      omega
    · have := ih (i + 1) bi bv (Nat.lt_succ_of_lt h)
      omega

theorem argmaxIdx_lt_length (l : List ℤ) (h : l ≠ []) : argmaxIdx l < l.length := by
  cases l with
  | nil => exact absurd rfl h
  | cons x xs =>
    have := argmaxAux_lt xs 1 0 x Nat.zero_lt_one
    simp only [argmaxIdx, List.length_cons]
    omega

theorem length_linear_apply (l : Linear) (x : Vec) :
    (l.apply x).length = min l.weight.length l.bias.length := by
  simp [Linear.apply]

theorem eosBreak_iff (eos : Nat) (y : List Token) :
    eosBreak eos y = true ↔ ∀ tok ∈ y, tok = eos := by
  unfold eosBreak
  rw [decide_eq_true_eq]
  constructor
  · intro h tok htok
    have hsub : y.filter (fun tok => decide (tok = eos)) = y :=
      (List.filter_sublist y).eq_of_length h
    have := List.filter_eq_self.mp hsub tok htok
    exact of_decide_eq_true this
  · intro h
    rw [List.filter_eq_self.mpr (fun a ha => decide_eq_true (h a ha))]

/-- Claim C1: for every decoding step, `_decode_step` advances the recurrent
decoder state by running `self.decoder` on the concatenated input `dec_in`,
then computes a context vector and attention weights over the encoder
outputs by running `self.attend` on the fresh decoder output, and returns
the updated decoder output, decoder state, context vector, and per-step
attention weights, in that order, on every batch row. -/
theorem C1_decode_step (m : Model S) (enc_out : List (List Vec))
    (dec_in : List Vec) (dec_state : List S) (att_weights_step : List Vec)
    (i : Nat) (di : Vec) (si : S) (ei : List Vec) (wi : Vec)
    (h1 : dec_in[i]? = some di) (h2 : dec_state[i]? = some si)
    (h3 : enc_out[i]? = some ei) (h4 : att_weights_step[i]? = some wi) :
    ((_decode_step m enc_out dec_in dec_state att_weights_step).1[i]?
        = some (m.decoder di si).1) ∧
    ((_decode_step m enc_out dec_in dec_state att_weights_step).2.1[i]?
        = some (m.decoder di si).2) ∧
    ((_decode_step m enc_out dec_in dec_state att_weights_step).2.2.1[i]?
        = some (m.attend ei (m.decoder di si).1 wi).1) ∧
    ((_decode_step m enc_out dec_in dec_state att_weights_step).2.2.2[i]?
        = some (m.attend ei (m.decoder di si).1 wi).2) := by
  simp only [_decode_step]
  refine ⟨?_, ?_, ?_, ?_⟩ <;>
    simp [getElem?_map', getElem?_zipWith', getElem?_zipWith3', h1, h2, h3, h4]

/-- Instance of claim C1 on a concrete batch row. -/
theorem C1_witness :
    ((_decode_step modelA [[[0]]] [[0, 0]] [()] [[0]]).1[0]?
        = some (modelA.decoder [0, 0] ()).1) ∧
    ((_decode_step modelA [[[0]]] [[0, 0]] [()] [[0]]).2.1[0]?
        = some (modelA.decoder [0, 0] ()).2) ∧
    ((_decode_step modelA [[[0]]] [[0, 0]] [()] [[0]]).2.2.1[0]?
        = some (modelA.attend [[0]] (modelA.decoder [0, 0] ()).1 [0]).1) ∧
    ((_decode_step modelA [[[0]]] [[0, 0]] [()] [[0]]).2.2.2[0]?
        = some (modelA.attend [[0]] (modelA.decoder [0, 0] ()).1 [0]).2) :=
  C1_decode_step modelA [[[0]]] [[0, 0]] [()] [[0]] 0 [0, 0] () [[0]] [0]
    rfl rfl rfl rfl

/-- Claim C5: `decode` dispatches on the beam width: width `1` produces the
greedy result, width greater than `1` produces the beam-search result, and
every call takes one of these two paths. -/
theorem C5_decode_dispatch (m : Model S) (enc_out : List (List Vec))
    (x_lens : List Nat) (max_decode_len : Nat) :
    (∀ beam_width, beam_width = 1 →
      decode m enc_out x_lens beam_width max_decode_len
        = some (greedy_best_hyps m enc_out max_decode_len)) ∧
    (∀ beam_width, 1 < beam_width →
      decode m enc_out x_lens beam_width max_decode_len
        = _decode_infer_beam m enc_out x_lens beam_width max_decode_len) ∧
    (∀ beam_width,
      decode m enc_out x_lens beam_width max_decode_len
        = some (greedy_best_hyps m enc_out max_decode_len) ∨
      decode m enc_out x_lens beam_width max_decode_len
        = _decode_infer_beam m enc_out x_lens beam_width max_decode_len) := by
  refine ⟨?_, ?_, ?_⟩
  · intro bw hbw
    simp [decode, hbw]
  · intro bw hbw
    have hne : bw ≠ 1 := by omega
    simp [decode, hne]
  · intro bw
    by_cases hbw : bw = 1
    · exact Or.inl (by simp [decode, hbw])
    · exact Or.inr (by simp [decode, hbw])

/-- Instance of claim C5 at beam widths 1 and 2. -/
theorem C5_witness :
    decode modelA [[[0]]] [1] 1 1
      = some (greedy_best_hyps modelA [[[0]]] 1) ∧
    decode modelA [[[0]]] [1] 2 1
      = _decode_infer_beam modelA [[[0]]] [1] 2 1 :=
  ⟨(C5_decode_dispatch modelA [[[0]]] [1] 1).1 1 rfl,
   (C5_decode_dispatch modelA [[[0]]] [1] 1).2.1 2 (by omega)⟩

/-- Claim C6: the CTC decoding path is gated on a joint CTC-attention model:
`decode_ctc` asserts `ctc_loss_weight > 0`, and the constructor installs the
CTC output layer and the CTC greedy/beam decoders exactly when
`ctc_loss_weight > 0`. -/
theorem C6_ctc_gate (S : Type) :
    (∀ (m : Model S) (beam_width : Nat), ¬ 0 < m.ctc_loss_weight →
      decode_ctc m beam_width = CtcOutcome.assertionFailed) ∧
    (∀ (m : Model S) (beam_width : Nat), 0 < m.ctc_loss_weight →
      decode_ctc m beam_width
        = CtcOutcome.proceeds m.fc_ctc (decide (beam_width ≠ 1))) ∧
    (∀ (h : Hyper) (p : Primitives S) (m : Model S),
      __init__ h p = Except.ok m →
      m.ctc_loss_weight = h.ctc_loss_weight ∧
      (m.fc_ctc.isSome = true ↔ 0 < h.ctc_loss_weight) ∧
      (m.ctc_decoders = true ↔ 0 < h.ctc_loss_weight)) := by
  refine ⟨?_, ?_, ?_⟩
  · intro m bw hw
    simp [decode_ctc, hw]
  · intro m bw hw
    simp [decode_ctc, hw]
  · intro h p m hinit
    simp only [__init__] at hinit
    split at hinit
    · exact absurd hinit (by simp)
    split at hinit
    · exact absurd hinit (by simp)
    split at hinit
    · rw [Except.ok.injEq] at hinit
      subst hinit
      refine ⟨rfl, ?_, by simp⟩
      split <;> simp_all
    split at hinit
    · split at hinit
      · rw [Except.ok.injEq] at hinit
        subst hinit
        refine ⟨rfl, ?_, by simp⟩
        split <;> simp_all
      · exact absurd hinit (by simp)
    · exact absurd hinit (by simp)

/-- Instance of claim C6 on concrete models with and without CTC weight. -/
theorem C6_witness :
    decode_ctc modelA 1 = CtcOutcome.assertionFailed ∧
    decode_ctc modelCtc 2
      = CtcOutcome.proceeds modelCtc.fc_ctc (decide ((2 : Nat) ≠ 1)) ∧
    (modelCtc.fc_ctc.isSome = true ↔ 0 < hCtc.ctc_loss_weight) :=
  ⟨(C6_ctc_gate Unit).1 modelA 1 (by norm_num [modelA]),
   (C6_ctc_gate Unit).2.1 modelCtc 2 (by norm_num [modelCtc, modelA]),
   ((C6_ctc_gate Unit).2.2 hCtc unitPrims modelCtc (by rfl)).2.1⟩

/-- Claim C8: the constructor validates its arguments: an `init_dec_state`
outside zero/mean/final raises `ValueError`; `scheduled_sampling_prob > 0`
together with `scheduled_sampling_ramp_max_step == 0` raises `ValueError`
(this check precedes the encoder dispatch, so it fires whatever the encoder
type); and when both earlier checks pass, an `encoder_type` outside
lstm/gru/rnn/cnn raises `NotImplementedError`.  Each case is an error, so no
model object is produced. -/
theorem C8_init_validation (S : Type) :
    (∀ (h : Hyper) (p : Primitives S),
      h.init_dec_state ∉ (["zero", "mean", "final"] : List String) →
      __init__ h p = Except.error PyError.valueError) ∧
    (∀ (h : Hyper) (p : Primitives S),
      0 < h.scheduled_sampling_prob →
      h.scheduled_sampling_ramp_max_step = 0 →
      __init__ h p = Except.error PyError.valueError) ∧
    (∀ (h : Hyper) (p : Primitives S),
      h.init_dec_state ∈ (["zero", "mean", "final"] : List String) →
      ¬(0 < h.scheduled_sampling_prob ∧
          h.scheduled_sampling_ramp_max_step = 0) →
      h.encoder_type ∉ (["lstm", "gru", "rnn", "cnn"] : List String) →
      __init__ h p = Except.error PyError.notImplementedError) := by
  refine ⟨?_, ?_, ?_⟩
  · intro h p hmem
    simp only [__init__, if_pos hmem]
  · intro h p h1 h2
    by_cases hmem : h.init_dec_state ∈ (["zero", "mean", "final"] : List String)
    · have : ¬ h.init_dec_state ∉ (["zero", "mean", "final"] : List String) :=
        not_not_intro hmem
      simp only [__init__, if_neg this, if_pos (And.intro h1 h2)]
    · simp only [__init__, if_pos hmem]
  · intro h p hmem hss henc
    have hmem2 : ¬ h.init_dec_state ∉ (["zero", "mean", "final"] : List String) :=
      not_not_intro hmem
    have h3 : h.encoder_type ∉ (["lstm", "gru", "rnn"] : List String) := by
      intro hc
      apply henc
      simp only [List.mem_cons, List.mem_singleton] at hc ⊢
      tauto
    have h4 : h.encoder_type ≠ "cnn" := by
      intro hc
      apply henc
      simp [hc]
    simp only [__init__, if_neg hmem2, if_neg hss, if_neg h3, if_neg h4]

/-- Instance of claim C8 on three concrete invalid hyperparameter sets. -/
theorem C8_witness :
    __init__ { hLstm with init_dec_state := "bad" } unitPrims
      = Except.error PyError.valueError ∧
    __init__ { hLstm with
      scheduled_sampling_prob := 1,
      scheduled_sampling_ramp_max_step := 0 } unitPrims
      = Except.error PyError.valueError ∧
    __init__ { hLstm with encoder_type := "transformer" } unitPrims
      = Except.error PyError.notImplementedError :=
  ⟨(C8_init_validation Unit).1 _ unitPrims (by decide),
   (C8_init_validation Unit).2.1 _ unitPrims (by norm_num [hLstm]) rfl,
   (C8_init_validation Unit).2.2 _ unitPrims (by decide)
     (by norm_num [hLstm]) (by decide)⟩

/-- Claim C9: a forward call with `is_eval` leaves `_step` and
`_sample_prob` unchanged and returns the loss as a plain scalar; without
`is_eval` it increments `_step` by exactly one and, when `sample_prob > 0`,
sets `_sample_prob` to
`min(sample_prob, sample_prob * _step / sample_ramp_max_step)` with the
incremented step, so `_sample_prob` never exceeds `sample_prob` and is
non-decreasing over successive training calls (for a positive ramp). -/
theorem C9_call_counters (m : Model S) (enc_out : List (List Vec))
    (ys : List (List Token)) (rand : Nat → ℚ) :
    ((__call__ m enc_out ys rand true).2 = m) ∧
    ((__call__ m enc_out ys rand true).1
      = LossOut.scalar
          (m.xent ((_decode_train m enc_out ys rand).map TStep.logits) ys)) ∧
    ((__call__ m enc_out ys rand false).2._step = m._step + 1) ∧
    (0 < m.sample_prob →
      (__call__ m enc_out ys rand false).2._sample_prob
        = min m.sample_prob
            (m.sample_prob * ((m._step : ℚ) + 1) / m.sample_ramp_max_step)) ∧
    (0 < m.sample_prob →
      (__call__ m enc_out ys rand false).2._sample_prob ≤ m.sample_prob) ∧
    (0 < m.sample_prob → 0 < m.sample_ramp_max_step →
      (__call__ m enc_out ys rand false).2._sample_prob ≤
        (__call__ ((__call__ m enc_out ys rand false).2) enc_out ys rand
            false).2._sample_prob) := by
  have hstep : ∀ (m' : Model S),
      (__call__ m' enc_out ys rand false).2._step = m'._step + 1 := by
    intro m'
    simp only [__call__]
    rw [if_neg Bool.false_ne_true]
    split <;> rfl
  have hsp : ∀ (m' : Model S),
      (__call__ m' enc_out ys rand false).2.sample_prob = m'.sample_prob := by
    intro m'
    simp only [__call__]
    rw [if_neg Bool.false_ne_true]
    split <;> rfl
  have hramp : ∀ (m' : Model S),
      (__call__ m' enc_out ys rand false).2.sample_ramp_max_step
        = m'.sample_ramp_max_step := by
    intro m'
    simp only [__call__]
    rw [if_neg Bool.false_ne_true]
    split <;> rfl
  have hcur : ∀ (m' : Model S), 0 < m'.sample_prob →
      (__call__ m' enc_out ys rand false).2._sample_prob
        = min m'.sample_prob
            (m'.sample_prob / m'.sample_ramp_max_step * ((m'._step : ℚ) + 1)) := by
    intro m' hpos
    simp only [__call__]
    rw [if_neg Bool.false_ne_true, if_pos hpos]
  refine ⟨rfl, rfl, hstep m, ?_, ?_, ?_⟩
  · intro hpos
    rw [hcur m hpos, div_mul_eq_mul_div]
  · intro hpos
    rw [hcur m hpos]
    exact min_le_left _ _
  · intro hpos hr
    have hpos2 : 0 < (__call__ m enc_out ys rand false).2.sample_prob := by
      rw [hsp m]; exact hpos
    rw [hcur m hpos, hcur _ hpos2, hsp m, hramp m, hstep m]
    apply min_le_min le_rfl
    have h0 : (0 : ℚ) ≤ m.sample_prob / m.sample_ramp_max_step :=
      le_of_lt (div_pos hpos hr)
    apply mul_le_mul_of_nonneg_left _ h0
    push_cast
    linarith

theorem greedyGo_head (m : Model S) (enc_out : List (List Vec)) (fuel : Nat)
    (y : List Token) (st : LoopState S)
    (h : 0 < (greedyGo m enc_out fuel y st).length) :
    ((greedyGo m enc_out fuel y st).getD 0 default).consumed = y := by
  cases fuel with
  | zero => simp [greedyGo] at h
  | succ fuel =>
    simp only [greedyGo]
    by_cases hbrk : eosBreak m.eos_index
        ((loopIter m enc_out y st).1.map argmaxIdx) = true
    · simp [hbrk]
    · simp [hbrk]

theorem greedyGo_length_le (m : Model S) (enc_out : List (List Vec)) :
    ∀ (fuel : Nat) (y : List Token) (st : LoopState S),
      (greedyGo m enc_out fuel y st).length ≤ fuel := by
  intro fuel
  induction fuel with
  | zero => intro y st; simp [greedyGo]
  | succ fuel ih =>
    intro y st
    simp only [greedyGo]
    by_cases hbrk : eosBreak m.eos_index
        ((loopIter m enc_out y st).1.map argmaxIdx) = true
    · simp [hbrk]
    · have := ih ((loopIter m enc_out y st).1.map argmaxIdx)
        (loopIter m enc_out y st).2.2
      simp [hbrk, List.length_cons]
      omega

theorem greedyGo_chain (m : Model S) (enc_out : List (List Vec)) :
    ∀ (fuel : Nat) (y : List Token) (st : LoopState S) (i : Nat),
      i + 1 < (greedyGo m enc_out fuel y st).length →
      ((greedyGo m enc_out fuel y st).getD (i + 1) default).consumed
        = ((greedyGo m enc_out fuel y st).getD i default).logits.map argmaxIdx := by
  intro fuel
  induction fuel with
  | zero => intro y st i h; simp [greedyGo] at h
  | succ fuel ih =>
    intro y st i h
    by_cases hbrk : eosBreak m.eos_index
        ((loopIter m enc_out y st).1.map argmaxIdx) = true
    · simp [greedyGo, hbrk] at h
    · simp only [greedyGo, hbrk] at h ⊢
      simp only [Bool.false_eq_true, if_false, List.length_cons] at h ⊢
      cases i with
      | zero =>
        have hlen : 0 < (greedyGo m enc_out fuel
            ((loopIter m enc_out y st).1.map argmaxIdx)
            (loopIter m enc_out y st).2.2).length := by omega
        have hh := greedyGo_head m enc_out fuel
          ((loopIter m enc_out y st).1.map argmaxIdx)
          (loopIter m enc_out y st).2.2 hlen
        simpa using hh
      | succ i =>
        have h2 : i + 1 < (greedyGo m enc_out fuel
            ((loopIter m enc_out y st).1.map argmaxIdx)
            (loopIter m enc_out y st).2.2).length := by omega
        have := ih ((loopIter m enc_out y st).1.map argmaxIdx)
          (loopIter m enc_out y st).2.2 i h2
        simpa using this

theorem greedyGo_no_early (m : Model S) (enc_out : List (List Vec)) :
    ∀ (fuel : Nat) (y : List Token) (st : LoopState S) (i : Nat),
      i + 1 < (greedyGo m enc_out fuel y st).length →
      ¬ eosBreak m.eos_index
          (((greedyGo m enc_out fuel y st).getD i default).logits.map argmaxIdx)
        = true := by
  intro fuel
  induction fuel with
  | zero => intro y st i h; simp [greedyGo] at h
  | succ fuel ih =>
    intro y st i h
    by_cases hbrk : eosBreak m.eos_index
        ((loopIter m enc_out y st).1.map argmaxIdx) = true
    · simp [greedyGo, hbrk] at h
    · simp only [greedyGo, hbrk] at h ⊢
      simp only [Bool.false_eq_true, if_false, List.length_cons] at h ⊢
      cases i with
      | zero => simpa using hbrk
      | succ i =>
        have h2 : i + 1 < (greedyGo m enc_out fuel
            ((loopIter m enc_out y st).1.map argmaxIdx)
            (loopIter m enc_out y st).2.2).length := by omega
        have := ih ((loopIter m enc_out y st).1.map argmaxIdx)
          (loopIter m enc_out y st).2.2 i h2
        simpa using this

theorem greedyGo_last (m : Model S) (enc_out : List (List Vec)) :
    ∀ (fuel : Nat) (y : List Token) (st : LoopState S),
      (greedyGo m enc_out fuel y st).length < fuel →
      ∃ r, (greedyGo m enc_out fuel y st).getLast? = some r ∧
        eosBreak m.eos_index (r.logits.map argmaxIdx) = true := by
  intro fuel
  induction fuel with
  | zero => intro y st h; simp [greedyGo] at h
  | succ fuel ih =>
    intro y st h
    by_cases hbrk : eosBreak m.eos_index
        ((loopIter m enc_out y st).1.map argmaxIdx) = true
    · refine ⟨⟨y, (loopIter m enc_out y st).1, (loopIter m enc_out y st).2.1⟩,
        ?_, by simpa using hbrk⟩
      simp [greedyGo, hbrk]
    · simp only [greedyGo, hbrk] at h ⊢
      simp only [Bool.false_eq_true, if_false, List.length_cons] at h ⊢
      have h2 : (greedyGo m enc_out fuel
          ((loopIter m enc_out y st).1.map argmaxIdx)
          (loopIter m enc_out y st).2.2).length < fuel := by omega
      obtain ⟨r, hr, hb⟩ := ih ((loopIter m enc_out y st).1.map argmaxIdx)
        (loopIter m enc_out y st).2.2 h2
      refine ⟨r, ?_, hb⟩
      cases hrest : greedyGo m enc_out fuel
          ((loopIter m enc_out y st).1.map argmaxIdx)
          (loopIter m enc_out y st).2.2 with
      | nil => rw [hrest] at hr; simp at hr
      | cons b t =>
        rw [hrest] at hr
        rw [List.getLast?_cons_cons, hr]

theorem logitsOf_mem (m : Model S) (a b : List Vec) (row : Vec)
    (h : row ∈ logitsOf m a b) : ∃ v, row = m.fc.apply v := by
  simp only [logitsOf, List.mem_map] at h
  obtain ⟨v, _, hv⟩ := h
  exact ⟨(m.proj_layer.apply v).map m.tanh, hv.symm⟩

theorem greedyGo_logits_fc (m : Model S) (enc_out : List (List Vec)) :
    ∀ (fuel : Nat) (y : List Token) (st : LoopState S) (r : GStep),
      r ∈ greedyGo m enc_out fuel y st →
      ∀ row ∈ r.logits, ∃ v, row = m.fc.apply v := by
  intro fuel
  induction fuel with
  | zero => intro y st r hr; simp [greedyGo] at hr
  | succ fuel ih =>
    intro y st r hr
    by_cases hbrk : eosBreak m.eos_index
        ((loopIter m enc_out y st).1.map argmaxIdx) = true
    · simp only [greedyGo, hbrk, if_true, List.mem_singleton] at hr
      subst hr
      intro row hrow
      exact logitsOf_mem m _ _ row hrow
    · simp only [greedyGo, hbrk] at hr
      simp only [Bool.false_eq_true, if_false, List.mem_cons] at hr
      rcases hr with hr | hr
      · subst hr
        intro row hrow
        exact logitsOf_mem m _ _ row hrow
      · exact ih _ _ r hr

/-- Claim C3: in greedy inference the first decoder input is the `<SOS>`
token for every batch element, and each subsequent step consumes the per-row
argmax over the class logits emitted at the preceding step. -/
theorem C3_greedy_autoregressive (m : Model S) (enc_out : List (List Vec))
    (max_decode_len : Nat) :
    (0 < (_decode_infer_greedy m enc_out max_decode_len).length →
      ((_decode_infer_greedy m enc_out max_decode_len).getD 0 default).consumed
        = List.replicate enc_out.length m.sos_index) ∧
    (∀ i, i + 1 < (_decode_infer_greedy m enc_out max_decode_len).length →
      ((_decode_infer_greedy m enc_out max_decode_len).getD (i + 1)
            default).consumed
        = ((_decode_infer_greedy m enc_out max_decode_len).getD i
            default).logits.map argmaxIdx) := by
  constructor
  · intro h
    exact greedyGo_head m enc_out max_decode_len _ _ h
  · intro i h
    exact greedyGo_chain m enc_out max_decode_len _ _ i h

/-- Instance of claim C3 on a concrete model and input. -/
theorem C3_witness :
    ((_decode_infer_greedy modelA [[[0]]] 2).getD 0 default).consumed
      = List.replicate ([[[0]]] : List (List Vec)).length modelA.sos_index ∧
    ((_decode_infer_greedy modelA [[[0]]] 2).getD 1 default).consumed
      = ((_decode_infer_greedy modelA [[[0]]] 2).getD 0
          default).logits.map argmaxIdx :=
  ⟨(C3_greedy_autoregressive modelA [[[0]]] 2).1 (by decide),
   (C3_greedy_autoregressive modelA [[[0]]] 2).2 0 (by decide)⟩

/-- Claim C10: greedy inference always terminates with a bounded output: the
loop runs at most `max_decode_len` iterations, never breaks while some row
has not emitted `<EOS>`, and when it stops before the bound the last
recorded step emitted `<EOS>` on every row of the mini-batch. -/
theorem C10_greedy_bounded (m : Model S) (enc_out : List (List Vec))
    (max_decode_len : Nat) :
    (_decode_infer_greedy m enc_out max_decode_len).length ≤ max_decode_len ∧
    (∀ i, i + 1 < (_decode_infer_greedy m enc_out max_decode_len).length →
      ¬ ∀ tok ∈ ((_decode_infer_greedy m enc_out max_decode_len).getD i
            default).logits.map argmaxIdx, tok = m.eos_index) ∧
    ((_decode_infer_greedy m enc_out max_decode_len).length < max_decode_len →
      ∃ r, (_decode_infer_greedy m enc_out max_decode_len).getLast? = some r ∧
        ∀ tok ∈ r.logits.map argmaxIdx, tok = m.eos_index) := by
  refine ⟨greedyGo_length_le m enc_out max_decode_len _ _, ?_, ?_⟩
  · intro i h hall
    exact greedyGo_no_early m enc_out max_decode_len _ _ i h
      ((eosBreak_iff _ _).mpr hall)
  · intro h
    obtain ⟨r, hr, hb⟩ := greedyGo_last m enc_out max_decode_len _ _ h
    exact ⟨r, hr, (eosBreak_iff _ _).mp hb⟩

/-- Instance of claim C10 on a model that emits `<EOS>` immediately. -/
theorem C10_witness :
    (_decode_infer_greedy modelB [[[0]]] 2).length ≤ 2 ∧
    (∃ r, (_decode_infer_greedy modelB [[[0]]] 2).getLast? = some r ∧
      ∀ tok ∈ r.logits.map argmaxIdx, tok = modelB.eos_index) :=
  ⟨(C10_greedy_bounded modelB [[[0]]] 2).1,
   (C10_greedy_bounded modelB [[[0]]] 2).2.2 (by decide)⟩

theorem greedy_no_sos_core (m : Model S)
    (hw : m.fc.weight.length = m.sos_index)
    (hb : m.fc.bias.length = m.sos_index)
    (hpos : 0 < m.sos_index)
    (enc_out : List (List Vec)) (max_decode_len : Nat) :
    ∀ r ∈ _decode_infer_greedy m enc_out max_decode_len,
      ∀ tok ∈ r.logits.map argmaxIdx, tok < m.sos_index := by
  intro r hr tok htok
  rw [List.mem_map] at htok
  obtain ⟨row, hrow, htok⟩ := htok
  obtain ⟨v, hv⟩ := greedyGo_logits_fc m enc_out max_decode_len _ _ r hr row hrow
  subst htok
  have hlen : row.length = m.sos_index := by
    rw [hv, length_linear_apply, hw, hb, Nat.min_self]
  have hne : row ≠ [] := by
    intro hnil
    rw [hnil] at hlen
    simp at hlen
    omega
  have := argmaxIdx_lt_length row hne
  omega

/-- Claim C7: the output layer excludes the `<SOS>` class: for a model built
by the constructor, `sos_index = num_classes + 1` and
`eos_index = num_classes` (with the raw `num_classes` argument), `fc` has
`self.num_classes - 1` output units, and consequently every token selected
by the greedy argmax is strictly below `sos_index` - the decoder never
predicts `<SOS>`. -/
theorem C7_no_sos (h : Hyper) (p : Primitives S) (m : Model S)
    (hinit : __init__ h p = Except.ok m) (enc_out : List (List Vec))
    (max_decode_len : Nat) :
    m.sos_index = h.num_classes + 1 ∧
    m.eos_index = h.num_classes ∧
    m.fc.weight.length = m.num_classes - 1 ∧
    m.fc.bias.length = m.num_classes - 1 ∧
    (∀ r ∈ _decode_infer_greedy m enc_out max_decode_len,
      ∀ tok ∈ r.logits.map argmaxIdx, tok < m.sos_index) := by
  have hfields : m.sos_index = h.num_classes + 1 ∧ m.eos_index = h.num_classes ∧
      m.num_classes = h.num_classes + 2 ∧
      m.fc = makeLinear 1 (h.num_classes + 2 - 1) h.decoder_num_units p.winit := by
    simp only [__init__] at hinit
    split at hinit
    · exact absurd hinit (by simp)
    split at hinit
    · exact absurd hinit (by simp)
    split at hinit
    · rw [Except.ok.injEq] at hinit
      subst hinit
      exact ⟨rfl, rfl, rfl, rfl⟩
    split at hinit
    · split at hinit
      · rw [Except.ok.injEq] at hinit
        subst hinit
        exact ⟨rfl, rfl, rfl, rfl⟩
      · exact absurd hinit (by simp)
    · exact absurd hinit (by simp)
  obtain ⟨hsos, heos, hnum, hfc⟩ := hfields
  have hw : m.fc.weight.length = m.sos_index := by
    rw [hfc, hsos]
    simp [makeLinear]
  have hb : m.fc.bias.length = m.sos_index := by
    rw [hfc, hsos]
    simp [makeLinear]
  refine ⟨hsos, heos, ?_, ?_, ?_⟩
  · rw [hw, hsos, hnum]; omega
  · rw [hb, hsos, hnum]; omega
  · exact greedy_no_sos_core m hw hb (by omega) enc_out max_decode_len

/-- Instance of claim C7 on a concrete constructed model. -/
theorem C7_witness :
    modelA.sos_index = hLstm.num_classes + 1 ∧
    modelA.fc.weight.length = modelA.num_classes - 1 ∧
    (0 : Nat) < modelA.sos_index :=
  ⟨(C7_no_sos hLstm unitPrims modelA rfl [[[0]]] 1).1,
   (C7_no_sos hLstm unitPrims modelA rfl [[[0]]] 1).2.2.1,
   (C7_no_sos hLstm unitPrims modelA rfl [[[0]]] 1).2.2.2.2
     ((_decode_infer_greedy modelA [[[0]]] 1).getD 0 default) (by decide)
     0 (by decide)⟩

theorem trainGo_length (m : Model S) (enc_out : List (List Vec))
    (ys : List (List Token)) (rand : Nat → ℚ) :
    ∀ (fuel t : Nat) (st : LoopState S) (prev : List TStep),
      (trainGo m enc_out ys rand t fuel st prev).length = fuel := by
  intro fuel
  induction fuel with
  | zero => intro t st prev; simp [trainGo]
  | succ fuel ih =>
    intro t st prev
    simp only [trainGo, List.length_cons]
    rw [ih]

theorem trainGo_teacher (m : Model S) (enc_out : List (List Vec))
    (ys : List (List Token)) (rand : Nat → ℚ) (h0 : m.sample_prob = 0) :
    ∀ (fuel t : Nat) (st : LoopState S) (prev : List TStep) (i : Nat),
      i < fuel →
      ((trainGo m enc_out ys rand t fuel st prev).getD i default).consumed
          = ysColumn ys (t + i) ∧
      ((trainGo m enc_out ys rand t fuel st prev).getD i default).sampled
          = false := by
  intro fuel
  induction fuel with
  | zero => intro t st prev i hi; exact absurd hi (Nat.not_lt_zero i)
  | succ fuel ih =>
    intro t st prev i hi
    have hs : (decide (m.sample_prob > 0) && decide (0 < t)
        && decide (0 < m._step) && decide (rand t < m._sample_prob)) = false := by
      simp [h0]
    simp only [trainGo, hs]
    cases i with
    | zero => simp
    | succ i =>
      have h2 := ih (t + 1) (loopIter m enc_out (ysColumn ys t) st).2.2
        (prev ++ [⟨ysColumn ys t, false,
          (loopIter m enc_out (ysColumn ys t) st).1,
          (loopIter m enc_out (ysColumn ys t) st).2.1⟩]) i (by omega)
      simp only [Bool.false_eq_true, if_false, List.getD_cons_succ]
      rw [show t + (i + 1) = t + 1 + i by omega]
      simpa using h2

/-- Claim C2: during training decoding with scheduled sampling disabled
(`sample_prob == 0`), the loop runs exactly `labels_max_seq_len - 1` steps,
and every step `t` consumes the ground-truth column `ys[:, t]` (teacher
forcing) with the sampling branch never taken. -/
theorem C2_decode_train_teacher_forcing (m : Model S)
    (enc_out : List (List Vec)) (ys : List (List Token)) (rand : Nat → ℚ)
    (h0 : m.sample_prob = 0) :
    (_decode_train m enc_out ys rand).length = labels_max_seq_len ys - 1 ∧
    ∀ t, t < (_decode_train m enc_out ys rand).length →
      ((_decode_train m enc_out ys rand).getD t default).consumed
          = ysColumn ys t ∧
      ((_decode_train m enc_out ys rand).getD t default).sampled = false := by
  constructor
  · exact trainGo_length m enc_out ys rand _ 0 _ []
  · intro t ht
    have hlen : (_decode_train m enc_out ys rand).length
        = labels_max_seq_len ys - 1 :=
      trainGo_length m enc_out ys rand _ 0 _ []
    have ht2 : t < labels_max_seq_len ys - 1 := by omega
    have := trainGo_teacher m enc_out ys rand h0 (labels_max_seq_len ys - 1) 0
      (initLoopState m enc_out) [] t ht2
    simpa using this

/-- Instance of claim C2 on a concrete model and label tensor. -/
theorem C2_witness :
    (_decode_train modelA [[[0]]] [[5, 0]] (fun _ => 0)).length
      = labels_max_seq_len [[5, 0]] - 1 ∧
    ((_decode_train modelA [[[0]]] [[5, 0]] (fun _ => 0)).getD 0
        default).consumed = ysColumn [[5, 0]] 0 :=
  ⟨(C2_decode_train_teacher_forcing modelA [[[0]]] [[5, 0]] (fun _ => 0)
      rfl).1,
   ((C2_decode_train_teacher_forcing modelA [[[0]]] [[5, 0]] (fun _ => 0)
      rfl).2 0 (by decide)).1⟩

/-- Claim C4, evaluated on the code: `_decode_infer_beam` reads
`log_probs[i_batch, i]` from a log-probability matrix that has exactly one
row (the single hypothesis being expanded), so for any batch of size at
least 2 the second element indexes row 1 of a one-row matrix and the call
fails (modelled as `none`) before any hypothesis is returned, while the same
model succeeds on a one-element batch.  The per-element beam-management
behaviour that the claim describes therefore cannot hold for every batch
element. -/
theorem C4_beam_batch_indexing :
    _decode_infer_beam modelA [[[0]], [[0]]] [1, 1] 2 1 = none ∧
    _decode_infer_beam modelA [[[0]]] [1] 2 1 = some [[1]] :=
  ⟨by decide, by decide⟩

/-- Instance of claim C9 on a concrete scheduled-sampling model. -/
theorem C9_witness :
    ((__call__ modelC [[[0]]] [[5, 0]] (fun _ => 0) true).2 = modelC) ∧
    ((__call__ modelC [[[0]]] [[5, 0]] (fun _ => 0) false).2._step
      = modelC._step + 1) ∧
    ((__call__ modelC [[[0]]] [[5, 0]] (fun _ => 0) false).2._sample_prob ≤
      (__call__ ((__call__ modelC [[[0]]] [[5, 0]] (fun _ => 0) false).2)
          [[[0]]] [[5, 0]] (fun _ => 0) false).2._sample_prob) :=
  ⟨(C9_call_counters modelC [[[0]]] [[5, 0]] (fun _ => 0)).1,
   (C9_call_counters modelC [[[0]]] [[5, 0]] (fun _ => 0)).2.2.1,
   (C9_call_counters modelC [[[0]]] [[5, 0]] (fun _ => 0)).2.2.2.2.2
     (by norm_num [modelC, modelA]) (by norm_num [modelC, modelA])⟩

end A2S
